import Mathlib

/-!
Verification development for the KakaoTalk transcript extractor (src/app.py).

Strings from the Python source are modelled as `List Char`.  Each Python
function is embedded as an executable Lean definition with the same name
(modulo leading underscores, which Lean identifiers avoid here).  Regexes
from the source are embedded as deterministic matchers; for every regex in
the source the greedy sub-matchers are never forced to backtrack by a later
literal (digits are never whitespace or the following literal character),
so a deterministic greedy matcher computes exactly the Python match.
Fallible Python operations (datetime / date construction, int parsing)
are modelled with `Except Unit`.
-/

deriving instance DecidableEq for Except

namespace Katalk

/-- Python whitespace class restricted to ASCII, as used by `str.strip`
and by the regex class in the source patterns. -/
def isPyWS (c : Char) : Bool :=
  c = ' ' || c = '\t' || c = '\n' || c = '\r' || c = '\x0b' || c = '\x0c'

def dropWS (s : List Char) : List Char := s.dropWhile isPyWS

/-- Python `str.strip()` on ASCII whitespace. -/
def strip (s : List Char) : List Char :=
  (((s.dropWhile isPyWS).reverse).dropWhile isPyWS).reverse

/-- Python substring test `needle in hay`. -/
def isSubstr (needle hay : List Char) : Bool :=
  (List.range (hay.length + 1)).any (fun i => needle.isPrefixOf (hay.drop i))

def digitVal (c : Char) : Nat := c.toNat - 48

def natOfDigits (ds : List Char) : Nat :=
  ds.foldl (fun acc c => acc * 10 + digitVal c) 0

/-- Decimal rendering of a nonnegative integer, zero padded to width `w`
(CPython `format(n, "0wd")` / `strftime` zero padding). -/
def padNum (w : Nat) (n : Nat) : List Char :=
  let ds := Nat.toDigits 10 n
  List.replicate (w - ds.length) '0' ++ ds

/-- Python `text.split("\x7b newline \x7d")`: splitting an empty string
yields one empty piece and a trailing separator yields a trailing empty
piece. -/
def splitOnNL : List Char → List (List Char)
  | [] => [[]]
  | '\n' :: rest => [] :: splitOnNL rest
  | c :: rest =>
    match splitOnNL rest with
    | [] => [[c]]
    | l :: ls => (c :: l) :: ls

/-- The line-ending normalization done by `split_messages`: CRLF and CR
both become LF. -/
def normEol : List Char → List Char
  | [] => []
  | '\r' :: '\n' :: rest => '\n' :: normEol rest
  | '\r' :: rest => '\n' :: normEol rest
  | c :: rest => c :: normEol rest

/-- Python `str.splitlines()` restricted to the LF / CRLF / CR boundaries
that can occur in this pipeline: no trailing empty piece, empty string
gives no pieces. -/
def splitlinesPy : List Char → List (List Char)
  | [] => []
  | '\r' :: '\n' :: rest => [] :: splitlinesPy rest
  | '\r' :: rest => [] :: splitlinesPy rest
  | '\n' :: rest => [] :: splitlinesPy rest
  | c :: rest =>
    match splitlinesPy rest with
    | [] => [[c]]
    | l :: ls => (c :: l) :: ls

/-- Python `"sep".join pieces` is `List.intercalate`. -/
def joinWith (sep : List Char) (pieces : List (List Char)) : List Char :=
  List.intercalate sep pieces

-- =========================
-- Calendar model (Python datetime.date / datetime.datetime)
-- =========================

structure Date where
  year : Nat
  month : Nat
  day : Nat
deriving DecidableEq, Repr

structure DateTime where
  year : Nat
  month : Nat
  day : Nat
  hour : Nat
  minute : Nat
deriving DecidableEq, Repr

def isLeap (y : Nat) : Bool := y % 4 = 0 && (y % 100 ≠ 0 || y % 400 = 0)

def daysInMonth (y m : Nat) : Nat :=
  if m = 2 then (if isLeap y then 29 else 28)
  else if m = 4 || m = 6 || m = 9 || m = 11 then 30
  else 31

def validYMD (y m d : Nat) : Bool :=
  1 ≤ y && y ≤ 9999 && 1 ≤ m && m ≤ 12 && 1 ≤ d && d ≤ daysInMonth y m

/-- Python `date(y, m, d)`: raises `ValueError` on out-of-range fields. -/
def mkDate (y m d : Nat) : Except Unit Date :=
  if validYMD y m d then .ok ⟨y, m, d⟩ else .error ()

/-- Python `datetime(y, m, d, h, mi)`. -/
def mkDateTime (y m d h mi : Nat) : Except Unit DateTime :=
  if validYMD y m d && h ≤ 23 && mi ≤ 59 then .ok ⟨y, m, d, h, mi⟩ else .error ()

/-- Python `date` comparison (lexicographic on year, month, day). -/
def dateLt (a b : Date) : Bool :=
  a.year < b.year ||
    (a.year = b.year &&
      (a.month < b.month || (a.month = b.month && a.day < b.day)))

def dateLe (a b : Date) : Bool := dateLt a b || a = b

/-- Python `datetime.date()`. -/
def dateOf (dt : DateTime) : Date := ⟨dt.year, dt.month, dt.day⟩

-- =========================
-- AM/PM marker and hour conversion (src/app.py `_ampm_to_24h`)
-- =========================

/-- The two-valued marker captured by the regex group `(오전|오후)`. -/
inductive AMPM | am | pm
deriving DecidableEq, Repr

def ampmStr : AMPM → List Char
  | .am => ['오', '전']
  | .pm => ['오', '후']

/-- `_ampm_to_24h` from the source: the marker group is `None`, `"오전"`
or `"오후"`. -/
def ampm_to_24h (h : Nat) (ampm : Option AMPM) : Nat :=
  match ampm with
  | none => h
  | some .am => if h = 12 then 0 else h
  | some .pm => if h = 12 then 12 else h + 12

/-- The identical inline hour conversions done in the android/inline/name
branches of `split_messages`, where the marker is always present. -/
def ampm24 (ap : AMPM) (h : Nat) : Nat :=
  match ap with
  | .am => if h = 12 then 0 else h
  | .pm => if h = 12 then 12 else h + 12

/-- `_infer_year` from the source: builds `date(today.year, month, day)`
(which can raise) and rolls the year back when that date is strictly after
`today`. -/
def infer_year (month day : Nat) (today : Date) : Except Unit Nat :=
  match mkDate today.year month day with
  | .error e => .error e
  | .ok candidate =>
    if dateLt today candidate then .ok (today.year - 1) else .ok today.year

-- =========================
-- Regex matchers for the source patterns
-- =========================

/-- One or two decimal digits, greedy (regex `\d` with 1-2 repeats). -/
def takeD12 : List Char → Option (Nat × List Char)
  | a :: b :: r =>
    if a.isDigit then
      if b.isDigit then some (digitVal a * 10 + digitVal b, r)
      else some (digitVal a, b :: r)
    else none
  | [a] => if a.isDigit then some (digitVal a, []) else none
  | [] => none

/-- Exactly two decimal digits. -/
def takeD2 : List Char → Option (Nat × List Char)
  | a :: b :: r =>
    if a.isDigit && b.isDigit then some (digitVal a * 10 + digitVal b, r)
    else none
  | _ => none

/-- Exactly four decimal digits. -/
def takeD4 : List Char → Option (Nat × List Char)
  | a :: b :: c :: d :: r =>
    if a.isDigit && b.isDigit && c.isDigit && d.isDigit then
      some (digitVal a * 1000 + digitVal b * 100 + digitVal c * 10 + digitVal d, r)
    else none
  | _ => none

def takeChar (ch : Char) : List Char → Option (List Char)
  | c :: r => if c = ch then some r else none
  | [] => none

/-- The alternation `(오전|오후)`. -/
def takeAMPM : List Char → Option (AMPM × List Char)
  | '오' :: '전' :: r => some (.am, r)
  | '오' :: '후' :: r => some (.pm, r)
  | _ => none

/-- Cached instances: the grouped-tuple equality instances are provided
up front so that instance search on the search results stays small. -/
instance ymdGroupsDEq :
    DecidableEq (Nat × Nat × Nat × Option AMPM × Nat × Nat) := inferInstance

instance mdGroupsDEq :
    DecidableEq (Nat × Nat × Option AMPM × Nat × Nat) := inferInstance

/-- Turn an anchored matcher into Python `re.search`: try each start
position from the left; also return the matched substring (group 0). -/
def searchWith {α : Type} (p : List Char → Option (α × List Char)) :
    List Char → Option (α × List Char)
  | [] =>
    match p [] with
    | some (a, _) => some (a, [])
    | none => none
  | c :: t =>
    match p (c :: t) with
    | some (a, r) => some (a, (c :: t).take ((c :: t).length - r.length))
    | none => searchWith p t

/-- `RE_KO_YMD_TIME` anchored at a position:
`(?P y \d4)\s*년\s*(?P m \d1-2)\s*월\s*(?P d \d1-2)\s*일\s*(?:(오전|오후)\s*)?(?P h \d1-2)\s*:\s*(?P min \d2)`. -/
def matchYMDAt (s : List Char) :
    Option ((Nat × Nat × Nat × Option AMPM × Nat × Nat) × List Char) := do
  let (y, s) ← takeD4 s
  let s ← takeChar '년' (dropWS s)
  let (m, s) ← takeD12 (dropWS s)
  let s ← takeChar '월' (dropWS s)
  let (d, s) ← takeD12 (dropWS s)
  let s ← takeChar '일' (dropWS s)
  let s := dropWS s
  let (ap, s) :=
    match takeAMPM s with
    | some (a, s2) => (some a, dropWS s2)
    | none => ((none : Option AMPM), s)
  let (h, s) ← takeD12 s
  let s ← takeChar ':' (dropWS s)
  let (mi, s) ← takeD2 (dropWS s)
  pure ((y, m, d, ap, h, mi), s)

/-- `RE_KO_MD_TIME` anchored at a position (same but without the year). -/
def matchMDAt (s : List Char) :
    Option ((Nat × Nat × Option AMPM × Nat × Nat) × List Char) := do
  let (m, s) ← takeD12 s
  let s ← takeChar '월' (dropWS s)
  let (d, s) ← takeD12 (dropWS s)
  let s ← takeChar '일' (dropWS s)
  let s := dropWS s
  let (ap, s) :=
    match takeAMPM s with
    | some (a, s2) => (some a, dropWS s2)
    | none => ((none : Option AMPM), s)
  let (h, s) ← takeD12 s
  let s ← takeChar ':' (dropWS s)
  let (mi, s) ← takeD2 (dropWS s)
  pure ((m, d, ap, h, mi), s)

/-- `parse_kakao_datetime` from the source: full pattern first, then the
year-less pattern with year inference; `datetime(...)` can raise. -/
def parse_kakao_datetime (text : List Char) (today : Date) :
    Except Unit (Option (DateTime × List Char)) :=
  match searchWith matchYMDAt text with
  | some ((y, mo, d, ap, h, mi), mstr) =>
    match mkDateTime y mo d (ampm_to_24h h ap) mi with
    | .error e => .error e
    | .ok dt => .ok (some (dt, mstr))
  | none =>
    match searchWith matchMDAt text with
    | some ((mo, d, ap, h, mi), mstr) =>
      match infer_year mo d today with
      | .error e => .error e
      | .ok y =>
        match mkDateTime y mo d (ampm_to_24h h ap) mi with
        | .error e => .error e
        | .ok dt => .ok (some (dt, mstr))
    | none => .ok none

/-- `RE_DATE_DIVIDER` anchored at a position.  The trailing
`(?:\s*(?:\(...\)|weekday))?\s*-*` of the source pattern can always match
the empty string and captures nothing, so success and the three groups
depend only on `-+\s*(\d4)년\s*(\d1-2)월\s*(\d1-2)일`. -/
def matchDividerAt (s : List Char) : Option ((Nat × Nat × Nat) × List Char) :=
  match s with
  | '-' :: r =>
    let r := r.dropWhile (· = '-')
    (do
      let (y, r) ← takeD4 (dropWS r)
      let r ← takeChar '년' r
      let (m, r) ← takeD12 (dropWS r)
      let r ← takeChar '월' r
      let (d, r) ← takeD12 (dropWS r)
      let r ← takeChar '일' r
      pure ((y, m, d), r))
  | _ => none

def dividerSearch (s : List Char) : Option (Nat × Nat × Nat) :=
  (searchWith matchDividerAt s).map (·.1)

def isHangulSyl (c : Char) : Bool := 0xAC00 ≤ c.toNat && c.toNat ≤ 0xD7A3

/-- The optional weekday tail of `RE_DATE_LINE`,
`(?:\s*(?:\([^)]+\)|[가-힣]+))?\s*`, matched against the rest of the line
up to the end (`$` of a fullmatch). -/
def dateTailOk (s : List Char) : Bool :=
  s.all isPyWS ||
    (match dropWS s with
     | '(' :: r =>
       let mid := r.takeWhile (· ≠ ')')
       if mid = [] then false
       else
         match r.drop mid.length with
         | ')' :: after => after.all isPyWS
         | _ => false
     | r =>
       let run := r.takeWhile isHangulSyl
       run ≠ [] && (r.drop run.length).all isPyWS)

/-- `RE_DATE_LINE.fullmatch`:
`^\s*(\d4)년\s*(\d1-2)월\s*(\d1-2)일(?:weekday)?\s*$`. -/
def dateLineFull (s : List Char) : Option (Nat × Nat × Nat) := do
  let s := dropWS s
  let (y, s) ← takeD4 s
  let s ← takeChar '년' s
  let (m, s) ← takeD12 (dropWS s)
  let s ← takeChar '월' s
  let (d, s) ← takeD12 (dropWS s)
  let s ← takeChar '일' s
  if dateTailOk s then pure (y, m, d) else none

/-- `RE_TIME_ONLY.fullmatch`: `(오전|오후)\s*(\d1-2):(\d2)`. -/
def timeOnlyFull (s : List Char) : Option (AMPM × Nat × Nat) := do
  let (ap, s) ← takeAMPM s
  let (h, s) ← takeD12 (dropWS s)
  let s ← takeChar ':' s
  let (mi, s) ← takeD2 s
  match s with
  | [] => pure (ap, h, mi)
  | _ => none

structure InlineG where
  sender : List Char
  ampm : AMPM
  h : Nat
  min : Nat
  body : List Char
deriving DecidableEq, Repr

/-- `RE_INLINE_MSG.match`:
`^\[(?P sender [^\]]+)\]\s*\[(오전|오후)\s*(\d1-2):(\d2)\]\s*(?P body .*)$`.
The sender group is everything before the first closing bracket. -/
def inlineMatch (s : List Char) : Option InlineG := do
  let s ← takeChar '[' s
  let sender := s.takeWhile (· ≠ ']')
  match sender, s.drop sender.length with
  | [], _ => none
  | _, ']' :: s => do
    let s ← takeChar '[' (dropWS s)
    let (ap, s) ← takeAMPM s
    let (h, s) ← takeD12 (dropWS s)
    let s ← takeChar ':' s
    let (mi, s) ← takeD2 s
    let s ← takeChar ']' s
    pure ⟨sender, ap, h, mi, dropWS s⟩
  | _, _ => none

structure AndroidG where
  y : Nat
  m : Nat
  d : Nat
  ampm : AMPM
  h : Nat
  min : Nat
  sender : List Char
  body : List Char
deriving DecidableEq, Repr

/-- `RE_ANDROID_INLINE.match`:
`^(\d4)년\s*(\d1-2)월\s*(\d1-2)일\s*(오전|오후)\s*(\d1-2):(\d2),\s*(?P sender [^:]+)\s*:\s*(?P body .*)$`.
The sender group is everything before the first colon. -/
def androidMatch (s : List Char) : Option AndroidG := do
  let (y, s) ← takeD4 s
  let s ← takeChar '년' s
  let (m, s) ← takeD12 (dropWS s)
  let s ← takeChar '월' s
  let (d, s) ← takeD12 (dropWS s)
  let s ← takeChar '일' s
  let (ap, s) ← takeAMPM (dropWS s)
  let (h, s) ← takeD12 (dropWS s)
  let s ← takeChar ':' s
  let (mi, s) ← takeD2 s
  let s ← takeChar ',' s
  let s := dropWS s
  let sender := s.takeWhile (· ≠ ':')
  match sender, s.drop sender.length with
  | [], _ => none
  | _, ':' :: r => pure ⟨y, m, d, ap, h, mi, sender, dropWS r⟩
  | _, _ => none

/-- `RE_CELL_ID` (`3[- ]?(\d)셀`) anchored at a position; the capture is
the single digit after the literal `3` and optional separator. -/
def matchCellIdAt : List Char → Option (Nat × List Char)
  | '3' :: c :: rest =>
    if c = '-' || c = ' ' then
      match rest with
      | d :: '셀' :: r => if d.isDigit then some (digitVal d, r) else none
      | _ => none
    else if c.isDigit then
      match rest with
      | '셀' :: r => some (digitVal c, r)
      | _ => none
    else none
  | _ => none

def cellIdSearch (s : List Char) : Option Nat :=
  (searchWith matchCellIdAt s).map (·.1)

/-- `extract_number`: first maximal digit run (`RE_NUMBER.search`), else 0. -/
def extract_number (t : List Char) : Nat :=
  match t.dropWhile (fun c => !c.isDigit) with
  | [] => 0
  | ds => natOfDigits (ds.takeWhile Char.isDigit)

def isMoneyChar (c : Char) : Bool := c.isDigit || c = ','

/-- `RE_MONEY` (`([\d,]+)원`) anchored at a position: a maximal nonempty
run of digits/commas immediately followed by the currency character. -/
def matchMoneyAt (s : List Char) : Option (List Char × List Char) :=
  let run := s.takeWhile isMoneyChar
  if run = [] then none
  else
    match s.drop run.length with
    | '원' :: r => some (run, r)
    | _ => none

/-- Python `int(str)` after stripping commas: raises on an empty digit
string (an all-comma amount). -/
def pyIntDigits (ds : List Char) : Except Unit Nat :=
  if ds = [] then .error () else .ok (natOfDigits ds)

/-- `extract_money`: search for the money pattern, strip commas, `int`. -/
def extract_money (t : List Char) : Except Unit Nat :=
  match searchWith matchMoneyAt t with
  | some (run, _) => pyIntDigits (run.filter Char.isDigit)
  | none => .ok 0

-- =========================
-- Message model (src/app.py KMessage)
-- =========================

structure KMessage where
  sender : List Char
  sent_at : DateTime
  header_lines : List (List Char)
  body_lines : List (List Char)
deriving DecidableEq, Repr

/-- `KMessage.body_text`. -/
def body_text (msg : KMessage) : List Char :=
  strip (joinWith ['\n'] msg.body_lines)

/-- `strftime("%Y-%m-%d %H:%M")`. -/
def fmtYMDHM (dt : DateTime) : List Char :=
  padNum 4 dt.year ++ ['-'] ++ padNum 2 dt.month ++ ['-'] ++ padNum 2 dt.day ++
    [' '] ++ padNum 2 dt.hour ++ [':'] ++ padNum 2 dt.minute

/-- `KMessage.to_block_text`. -/
def to_block_text (msg : KMessage) (include_header : Bool) : List Char :=
  let body := body_text msg
  if include_header then
    strip ('[' :: msg.sender ++ [' ', '|', ' '] ++ fmtYMDHM msg.sent_at ++
      [']', '\n'] ++ body)
  else strip body

-- =========================
-- Transcript segmenter (src/app.py split_messages)
-- =========================

def unknownSender : List Char := ['U', 'N', 'K', 'N', 'O', 'W', 'N']

structure SplitState where
  messages : List KMessage
  current_date : Option Date
  current_sender : Option (List Char)
  current_dt : Option DateTime
  current_header_lines : List (List Char)
  current_body_lines : List (List Char)
deriving DecidableEq, Repr

def initState : SplitState := ⟨[], none, none, none, [], []⟩

/-- Python `current_sender or "UNKNOWN"`: `None` and the empty string are
both falsy. -/
def senderOrUnknown : Option (List Char) → List Char
  | some s => if s = [] then unknownSender else s
  | none => unknownSender

/-- The `flush` closure: emit the accumulator only when it has both a
timestamp and at least one accumulated body line, then reset everything
except the ambient date. -/
def flushState (st : SplitState) : SplitState :=
  let msgs :=
    match st.current_dt with
    | some dt =>
      if st.current_body_lines = [] then st.messages
      else st.messages ++
        [⟨senderOrUnknown st.current_sender, dt, st.current_header_lines,
          st.current_body_lines⟩]
    | none => st.messages
  ⟨msgs, st.current_date, none, none, [], []⟩

/-- `looks_like_name` from the source: the trimmed line is nonempty, at
most 20 characters, contains no space character, and does not start with
an opening bracket. -/
def looks_like_name (s : List Char) : Bool :=
  let s := strip s
  1 ≤ s.length && s.length ≤ 20 && !s.contains ' ' && s.head? ≠ some '['

/-- Body accumulation: any other line is appended verbatim (unstripped)
to the open message, or discarded when no message is open. -/
def accBody (st : SplitState) (l : List Char) : SplitState :=
  match st.current_dt with
  | some _ => { st with current_body_lines := st.current_body_lines ++ [l] }
  | none => st

/-- Header text reconstructed in the android branch:
`f"{y}년 {m}월 {d}일 {ampm} {h}:{minute:02d}, {current_sender}"`. -/
def androidHeader (g : AndroidG) : List Char :=
  Nat.toDigits 10 g.y ++ ['년', ' '] ++ Nat.toDigits 10 g.m ++ ['월', ' '] ++
    Nat.toDigits 10 g.d ++ ['일', ' '] ++ ampmStr g.ampm ++ [' '] ++
    Nat.toDigits 10 g.h ++ [':'] ++ padNum 2 g.min ++ [',', ' '] ++
    strip g.sender

/-- Header text reconstructed in the inline branch:
`f"[{sender}] [{ampm} {h}:{minute:02d}]"`. -/
def inlineHeader (g : InlineG) : List Char :=
  '[' :: g.sender ++ [']', ' ', '['] ++ ampmStr g.ampm ++ [' '] ++
    Nat.toDigits 10 g.h ++ [':'] ++ padNum 2 g.min ++ [']']

/-- The single-line branches of the scan loop, in source order: date
divider, standalone date line, android one-line message, PC/iOS one-line
message (the latter only with an ambient date).  `none` means none of
these matched and the scan falls through to the name-lookahead / body
accumulation stage. -/
def splitLine1 (st : SplitState) (l : List Char) :
    Option (Except Unit SplitState) :=
  let line := strip l
  match dividerSearch line with
  | some (y, m, d) =>
    some (match mkDate y m d with
      | .error e => .error e
      | .ok cd => .ok { flushState st with current_date := some cd })
  | none =>
    match dateLineFull line with
    | some (y, m, d) =>
      some (match mkDate y m d with
        | .error e => .error e
        | .ok cd => .ok { flushState st with current_date := some cd })
    | none =>
      match androidMatch line with
      | some g =>
        some (match mkDateTime g.y g.m g.d (ampm24 g.ampm g.h) g.min with
          | .error e => .error e
          | .ok dt =>
            .ok { flushState st with
                  current_sender := some (strip g.sender),
                  current_dt := some dt,
                  current_header_lines := [androidHeader g],
                  current_body_lines :=
                    if strip g.body = [] then [] else [strip g.body] })
      | none =>
        match st.current_date, inlineMatch line with
        | some cd, some g =>
          some (match mkDateTime cd.year cd.month cd.day (ampm24 g.ampm g.h)
              g.min with
            | .error e => .error e
            | .ok dt =>
              .ok { flushState st with
                    current_sender := some g.sender,
                    current_dt := some dt,
                    current_header_lines := [inlineHeader g],
                    current_body_lines :=
                      if strip g.body = [] then [] else [strip g.body] })
        | _, _ => none

/-- The name-plus-time two-line branch: only when an ambient date is set,
no message is open, the (stripped) line looks like a name and the next
line is exactly a time-only line. -/
def splitNameStep (st : SplitState) (line next : List Char) :
    Option (Except Unit SplitState) :=
  match st.current_date, st.current_dt with
  | some cd, none =>
    if looks_like_name line then
      match timeOnlyFull (strip next) with
      | some (ap, h, mi) =>
        some (match mkDateTime cd.year cd.month cd.day (ampm24 ap h) mi with
          | .error e => .error e
          | .ok dt =>
            .ok { flushState st with
                  current_sender := some line,
                  current_dt := some dt,
                  current_header_lines := [line, strip next],
                  current_body_lines := [] })
      | none => none
    else none
  | _, _ => none

/-- The main scan loop of `split_messages`: the one-line branches first,
then (only when a lookahead line exists) the name-plus-time branch, then
body accumulation.  The last line of the input can never start a
name-plus-time pair, exactly as in the source (`i + 1 < len(lines)`). -/
def splitLoop : SplitState → List (List Char) → Except Unit SplitState
  | st, [] => .ok st
  | st, [l] =>
    match splitLine1 st l with
    | some (.error e) => .error e
    | some (.ok st2) => splitLoop st2 []
    | none => splitLoop (accBody st l) []
  | st, l :: next :: rest2 =>
    match splitLine1 st l with
    | some (.error e) => .error e
    | some (.ok st2) => splitLoop st2 (next :: rest2)
    | none =>
      match splitNameStep st (strip l) next with
      | some (.error e) => .error e
      | some (.ok st2) => splitLoop st2 rest2
      | none => splitLoop (accBody st l) (next :: rest2)

/-- `split_messages`: normalize line endings, scan, final flush.  The
`today` parameter mirrors the source signature (unused by the scan). -/
def split_messages (raw : List Char) (_today : Date) :
    Except Unit (List KMessage) :=
  match splitLoop initState (splitOnNL (normEol raw)) with
  | .error e => .error e
  | .ok st => .ok (flushState st).messages

-- =========================
-- Cell report model and sub-extractor (src/app.py CellReport, parse_cell_report)
-- =========================

/-- The `devotion` dict: keys set on demand, boolean for five categories
and a count for `dawn` (`- 새벽예배`). -/
structure DevotionR where
  sunday : Option Bool := none
  afternoon : Option Bool := none
  clt : Option Bool := none
  bible_college : Option Bool := none
  friday : Option Bool := none
  dawn : Option Nat := none
deriving DecidableEq, Repr

structure CellReport where
  cell_no : Nat
  leader : List Char
  sunday_total : Nat := 0
  sunday_attend : Nat := 0
  week_total : Nat := 0
  week_attend : Nat := 0
  bible : Nat := 0
  prayer : Nat := 0
  offering : Nat := 0
  absentees_sunday : List Char := []
  absentees_week : List Char := []
  devotion : DevotionR := {}
deriving DecidableEq, Repr

inductive CellMode | sunday | week
deriving DecidableEq, Repr

-- Marker substrings checked by `parse_cell_report`.
def mkSundaySection : List Char := ['주', '일', ' ', '예', '배', ' ', '현', '황']
def mkWeekSection : List Char :=
  ['주', '간', ' ', '셀', '예', '배', ' ', '출', '결', ' ', '현', '황']
def mkJaejeok : List Char := ['-', ' ', '재', '적']
def mkChulseok : List Char := ['-', ' ', '출', '석']
def mkBibleRead : List Char := ['성', '경', '읽', '기']
def mkPrayer : List Char := ['-', ' ', '기', '도']
def mkOffering : List Char := ['-', ' ', '헌', '금']
def mkAbsent : List Char := ['이', '번', '주', ' ', '결', '석', '자']
def mkDevSunday : List Char := ['-', ' ', '주', '일', '예', '배']
def mkDevAfternoon : List Char := ['-', ' ', '오', '후', '예', '배']
def mkDevCLT : List Char := ['-', ' ', 'C', 'L', 'T']
def mkDevBibleCollege : List Char := ['-', ' ', '성', '경', '대', '학']
def mkDevFriday : List Char := ['-', ' ', '금', '요', '성', '령', '집', '회']
def mkDevDawn : List Char := ['-', ' ', '새', '벽', '예', '배']

def updJaejeok (mode : Option CellMode) (t : List Char) (r : CellReport) :
    CellReport :=
  if isSubstr mkJaejeok t then
    match mode with
    | some .sunday => { r with sunday_total := extract_number t }
    | some .week => { r with week_total := extract_number t }
    | none => r
  else r

def updChulseok (mode : Option CellMode) (t : List Char) (r : CellReport) :
    CellReport :=
  if isSubstr mkChulseok t then
    match mode with
    | some .sunday => { r with sunday_attend := extract_number t }
    | some .week => { r with week_attend := extract_number t }
    | none => r
  else r

def updBible (t : List Char) (r : CellReport) : CellReport :=
  if isSubstr mkBibleRead t then { r with bible := extract_number t } else r

def updPrayer (t : List Char) (r : CellReport) : CellReport :=
  if isSubstr mkPrayer t then { r with prayer := extract_number t } else r

/-- The offering update calls `extract_money`, which can raise. -/
def updOffering (t : List Char) (r : CellReport) : Except Unit CellReport :=
  if isSubstr mkOffering t then
    match extract_money t with
    | .error e => .error e
    | .ok v => .ok { r with offering := v }
  else .ok r

def updAbsent (mode : Option CellMode) (t : List Char) (r : CellReport) :
    CellReport :=
  if isSubstr mkAbsent t then
    match mode with
    | some .sunday => { r with absentees_sunday := t }
    | some .week => { r with absentees_week := t }
    | none => r
  else r

/-- The six devotion-category checks, each conditionally writing one key
of the devotion dict (`O` presence for five flags, a count for dawn). -/
def updDevotion (t : List Char) (d : DevotionR) : DevotionR :=
  let d := if isSubstr mkDevSunday t then
      { d with sunday := some (isSubstr ['O'] t) }
    else d
  let d := if isSubstr mkDevAfternoon t then
      { d with afternoon := some (isSubstr ['O'] t) }
    else d
  let d := if isSubstr mkDevCLT t then
      { d with clt := some (isSubstr ['O'] t) }
    else d
  let d := if isSubstr mkDevBibleCollege t then
      { d with bible_college := some (isSubstr ['O'] t) }
    else d
  let d := if isSubstr mkDevFriday t then
      { d with friday := some (isSubstr ['O'] t) }
    else d
  if isSubstr mkDevDawn t then { d with dawn := some (extract_number t) }
  else d

/-- The ordered marker-check sequence run on one non-section line `t`
(already stripped), exactly in source order. -/
def cellLine (mode : Option CellMode) (t : List Char) (r : CellReport) :
    Except Unit CellReport :=
  let r := updJaejeok mode t r
  let r := updChulseok mode t r
  let r := updBible t r
  let r := updPrayer t r
  match updOffering t r with
  | .error e => .error e
  | .ok r =>
    let r := updAbsent mode t r
    .ok { r with devotion := updDevotion t r.devotion }

/-- The line loop of `parse_cell_report`: section-header lines switch the
mode and skip the marker checks (`continue`); every other line runs the
whole ordered marker check sequence. -/
def cellLoop : Option CellMode → CellReport → List (List Char) →
    Except Unit CellReport
  | _, r, [] => .ok r
  | mode, r, line :: rest =>
    let t := strip line
    if isSubstr mkSundaySection t then cellLoop (some .sunday) r rest
    else if isSubstr mkWeekSection t then cellLoop (some .week) r rest
    else
      match cellLine mode t r with
      | .error e => .error e
      | .ok r2 => cellLoop mode r2 rest

/-- `parse_cell_report`: no report without a cell-identifier marker in
the body; otherwise scan the body lines. -/
def parse_cell_report (msg : KMessage) : Except Unit (Option CellReport) :=
  let body := body_text msg
  match cellIdSearch body with
  | none => .ok none
  | some n =>
    match cellLoop none { cell_no := n, leader := msg.sender }
        (splitlinesPy body) with
    | .error e => .error e
    | .ok r => .ok (some r)

-- =========================
-- Filter stage (src/app.py filter_messages)
-- =========================

/-- Joined header text `" ".join(m.header_lines)`. -/
def headerJoin (m : KMessage) : List Char := joinWith [' '] m.header_lines

/-- `filter_messages`, written as the source loop with its three
`continue` guards. -/
def filter_messages (messages : List KMessage) (start_d end_d : Date)
    (senders keywords : List (List Char)) : List KMessage :=
  messages.foldl
    (fun results m =>
      let md := dateOf m.sent_at
      if !(dateLe start_d md && dateLe md end_d) then results
      else if !senders.isEmpty &&
          !(senders.any fun s => isSubstr s m.sender || isSubstr s (headerJoin m)) then
        results
      else if !keywords.isEmpty &&
          !(keywords.any fun k => isSubstr k (body_text m)) then
        results
      else results ++ [m])
    []

-- =========================
-- Formatter output (src/app.py output_blocks / output_text)
-- =========================

/-- The output block list: filtered messages with an empty `body_text`
are skipped, the rest are rendered with `to_block_text`. -/
def output_blocks (filtered : List KMessage) (include_header : Bool) :
    List (List Char) :=
  (filtered.filter fun m => body_text m ≠ []).map
    fun m => to_block_text m include_header

/-- `output_text = "\x7b blank line \x7d".join(output_blocks).strip()`. -/
def output_text (filtered : List KMessage) (include_header : Bool) :
    List Char :=
  strip (joinWith ['\n', '\n'] (output_blocks filtered include_header))

-- =========================
-- Theorems
-- =========================

/-- Claim C4: for every hour and AM/PM marker, the 24-hour conversion
returns 0 for AM-12, the hour unchanged for AM-other, 12 for PM-12,
hour+12 for PM-other, and the hour unchanged when the marker is absent. -/
theorem ampm_conversion_spec (h : Nat) :
    ampm_to_24h h none = h ∧
    ampm_to_24h 12 (some .am) = 0 ∧
    (h ≠ 12 → ampm_to_24h h (some .am) = h) ∧
    ampm_to_24h 12 (some .pm) = 12 ∧
    (h ≠ 12 → ampm_to_24h h (some .pm) = h + 12) := by
  refine ⟨rfl, rfl, ?_, rfl, ?_⟩ <;> intro hne <;> simp [ampm_to_24h, hne]

/-- Witness for C4 at hour 7. -/
theorem ampm_conversion_witness :
    ampm_to_24h 7 none = 7 ∧ ampm_to_24h 7 (some .am) = 7 ∧
      ampm_to_24h 7 (some .pm) = 19 :=
  ⟨(ampm_conversion_spec 7).1, (ampm_conversion_spec 7).2.2.1 (by decide),
    (ampm_conversion_spec 7).2.2.2.2 (by decide)⟩

/-- Claim C3: whenever the candidate calendar date is constructible, the
inferred year is the reference year, except that it is one less when
(month, day) is strictly after the reference (month, day); with reference
2026-01-10, 12/25 infers 2025 and 01/05 infers 2026. -/
theorem infer_year_spec :
    (∀ (month day : Nat) (today : Date) (c : Date),
        mkDate today.year month day = .ok c →
        infer_year month day today =
          .ok (if today.month < month ∨ (today.month = month ∧ today.day < day)
               then today.year - 1 else today.year)) ∧
    infer_year 12 25 ⟨2026, 1, 10⟩ = .ok 2025 ∧
    infer_year 1 5 ⟨2026, 1, 10⟩ = .ok 2026 := by
  refine ⟨?_, by decide, by decide⟩
  intro month day today c hmk
  have hc : c = ⟨today.year, month, day⟩ := by
    unfold mkDate at hmk
    split at hmk
    · cases hmk; rfl
    · cases hmk
  subst hc
  unfold infer_year
  rw [hmk]
  by_cases hlt : today.month < month ∨ (today.month = month ∧ today.day < day)
  · have : dateLt today ⟨today.year, month, day⟩ = true := by
      simp [dateLt, Nat.lt_irrefl]
      exact hlt
    simp [this, hlt]
  · have : dateLt today ⟨today.year, month, day⟩ = false := by
      simp [dateLt, Nat.lt_irrefl]
      push_neg at hlt
      exact ⟨hlt.1, hlt.2⟩
    simp [this, hlt]

/-- Witness for C3 at month 3, day 4, reference 2026-05-06. -/
theorem infer_year_witness :
    infer_year 3 4 ⟨2026, 5, 6⟩ =
      .ok (if 5 < 3 ∨ (5 = 3 ∧ 6 < 4) then 2026 - 1 else 2026) :=
  infer_year_spec.1 3 4 ⟨2026, 5, 6⟩ ⟨2026, 3, 4⟩ (by decide)

/-- The filter loop with its three `continue` guards is `List.filter` of
the conjunction of the three predicates, for any accumulator. -/
theorem filter_loop_eq (start_d end_d : Date)
    (senders keywords : List (List Char)) :
    ∀ (msgs acc : List KMessage),
      msgs.foldl
        (fun results m =>
          let md := dateOf m.sent_at
          if !(dateLe start_d md && dateLe md end_d) then results
          else if !senders.isEmpty &&
              !(senders.any fun s => isSubstr s m.sender ||
                isSubstr s (headerJoin m)) then
            results
          else if !keywords.isEmpty &&
              !(keywords.any fun k => isSubstr k (body_text m)) then
            results
          else results ++ [m])
        acc
      = acc ++ msgs.filter (fun m =>
          dateLe start_d (dateOf m.sent_at) && dateLe (dateOf m.sent_at) end_d &&
          (senders.isEmpty ||
            senders.any fun s => isSubstr s m.sender ||
              isSubstr s (headerJoin m)) &&
          (keywords.isEmpty ||
            keywords.any fun k => isSubstr k (body_text m))) := by
  intro msgs
  induction msgs with
  | nil => intro acc; simp
  | cons m ms ih =>
    intro acc
    simp only [List.foldl_cons, List.filter_cons]
    rw [ih]
    cases hA : (dateLe start_d (dateOf m.sent_at) &&
        dateLe (dateOf m.sent_at) end_d) <;>
      cases hB : senders.isEmpty <;>
      cases hC : (senders.any fun s => isSubstr s m.sender ||
        isSubstr s (headerJoin m)) <;>
      cases hD : keywords.isEmpty <;>
      cases hE : (keywords.any fun k => isSubstr k (body_text m)) <;>
      simp [hA, hB, hC, hD, hE]

/-- Claim C5: `filter_messages` keeps exactly the messages whose date is
in the inclusive range, that pass the sender filter (empty list, or some
term occurring in the sender or the joined header text), and that pass
the keyword filter (empty list, or some keyword occurring in the body
text), in the original order; with both lists empty the result is
exactly the date-range subset, unmodified and in order. -/
theorem filter_messages_spec (msgs : List KMessage) (s e : Date)
    (senders keywords : List (List Char)) :
    filter_messages msgs s e senders keywords
      = msgs.filter (fun m =>
          dateLe s (dateOf m.sent_at) && dateLe (dateOf m.sent_at) e &&
          (senders.isEmpty ||
            senders.any fun t => isSubstr t m.sender ||
              isSubstr t (headerJoin m)) &&
          (keywords.isEmpty ||
            keywords.any fun k => isSubstr k (body_text m))) ∧
    filter_messages msgs s e [] []
      = msgs.filter (fun m =>
          dateLe s (dateOf m.sent_at) && dateLe (dateOf m.sent_at) e) := by
  constructor
  · have h := filter_loop_eq s e senders keywords msgs []
    unfold filter_messages
    simpa using h
  · have h := filter_loop_eq s e [] [] msgs []
    unfold filter_messages
    simpa using h

-- Helper lemmas about `strip`.

theorem dropWhile_eq_self_of_head {l : List Char}
    (h : ∀ c, l.head? = some c → isPyWS c = false) :
    l.dropWhile isPyWS = l := by
  cases l with
  | nil => rfl
  | cons a t =>
    have := h a rfl
    simp [List.dropWhile_cons, this]

theorem getLast?_dropWhile (p : Char → Bool) :
    ∀ (l : List Char), l.dropWhile p ≠ [] →
      (l.dropWhile p).getLast? = l.getLast? := by
  intro l
  induction l with
  | nil => intro h; simp at h
  | cons a t ih =>
    intro h
    cases hp : p a with
    | true =>
      rw [List.dropWhile_cons_of_pos hp] at h ⊢
      cases t with
      | nil => simp at h
      | cons b t2 => rw [ih h]; simp
    | false =>
      rw [List.dropWhile_cons_of_neg (by simp [hp])]

theorem strip_eq_self {s : List Char}
    (h1 : ∀ c, s.head? = some c → isPyWS c = false)
    (h2 : ∀ c, s.getLast? = some c → isPyWS c = false) :
    strip s = s := by
  unfold strip
  rw [dropWhile_eq_self_of_head h1]
  rw [dropWhile_eq_self_of_head (by
    intro c hc
    rw [List.head?_reverse] at hc
    exact h2 c hc)]
  exact s.reverse_reverse

theorem head_of_dropWhile_not {p : Char → Bool} {l : List Char} {c : Char}
    (h : (l.dropWhile p).head? = some c) : p c = false := by
  have hne : l.dropWhile p ≠ [] := by
    intro he; rw [he] at h; simp at h
  have hh := List.head?_eq_head (l := l.dropWhile p) hne
  have hcc : (l.dropWhile p).head hne = c := by
    rw [h] at hh
    exact (Option.some_inj.mp hh).symm
  have hnp := List.head_dropWhile_not p l hne
  rw [hcc] at hnp
  exact hnp

theorem strip_getLast_not_ws {s : List Char} {c : Char}
    (h : (strip s).getLast? = some c) : isPyWS c = false := by
  unfold strip at h
  rw [List.getLast?_reverse] at h
  exact head_of_dropWhile_not h

theorem strip_head_not_ws {s : List Char} {c : Char}
    (h : (strip s).head? = some c) : isPyWS c = false := by
  unfold strip at h
  rw [List.head?_reverse] at h
  have hne : (s.dropWhile isPyWS).reverse.dropWhile isPyWS ≠ [] := by
    intro he; rw [he] at h; simp at h
  rw [getLast?_dropWhile isPyWS _ hne, List.getLast?_reverse] at h
  exact head_of_dropWhile_not h

def kimMsg : KMessage :=
  ⟨['K', 'i', 'm'], ⟨2026, 1, 4, 21, 5⟩, [], [['h', 'e', 'l', 'l', 'o']]⟩

/-- Claim C7: with the header enabled, a rendered message with nonempty
body is exactly the bracketed sender/timestamp header line followed by
the body; the Kim example renders to the exact expected text; and the
full output of two such messages joins the two blocks with exactly one
blank line (the outer trim changes nothing). -/
theorem formatter_spec :
    (∀ m : KMessage, body_text m ≠ [] →
      to_block_text m true
        = '[' :: m.sender ++ [' ', '|', ' '] ++ fmtYMDHM m.sent_at ++
            [']', '\n'] ++ body_text m) ∧
    to_block_text kimMsg true
      = ['[', 'K', 'i', 'm', ' ', '|', ' ', '2', '0', '2', '6', '-', '0',
         '1', '-', '0', '4', ' ', '2', '1', ':', '0', '5', ']', '\n',
         'h', 'e', 'l', 'l', 'o'] ∧
    (∀ m1 m2 : KMessage, body_text m1 ≠ [] → body_text m2 ≠ [] →
      output_text [m1, m2] true
        = to_block_text m1 true ++ ['\n', '\n'] ++ to_block_text m2 true) := by
  have hblock : ∀ m : KMessage, body_text m ≠ [] →
      to_block_text m true
        = '[' :: m.sender ++ [' ', '|', ' '] ++ fmtYMDHM m.sent_at ++
            [']', '\n'] ++ body_text m := by
    intro m hb
    show strip _ = _
    apply strip_eq_self
    · intro c hc
      simp only [List.cons_append, List.head?_cons, Option.some_inj] at hc
      rw [← hc]; decide
    · intro c hc
      simp only [List.append_assoc, List.getLast?_append] at hc
      rcases hlast : (body_text m).getLast? with _ | d
      · exact absurd (List.getLast?_eq_none_iff.mp hlast) hb
      · rw [hlast] at hc
        simp only [Option.or_some, Option.some_inj] at hc
        rw [← hc]
        exact strip_getLast_not_ws (s := joinWith ['\n'] m.body_lines) hlast
  have hlast_blk : ∀ m : KMessage, body_text m ≠ [] → ∀ c,
      (to_block_text m true).getLast? = some c → isPyWS c = false := by
    intro m hb c hc
    rw [hblock m hb] at hc
    simp only [List.append_assoc, List.getLast?_append] at hc
    rcases hlast : (body_text m).getLast? with _ | d
    · exact absurd (List.getLast?_eq_none_iff.mp hlast) hb
    · rw [hlast] at hc
      simp only [Option.or_some, Option.some_inj] at hc
      rw [← hc]
      exact strip_getLast_not_ws (s := joinWith ['\n'] m.body_lines) hlast
  refine ⟨hblock, by decide, ?_⟩
  intro m1 m2 h1 h2
  unfold output_text output_blocks
  have hfilter :
      ([m1, m2].filter fun m => body_text m ≠ []) = [m1, m2] := by
    simp [List.filter_cons, h1, h2]
  rw [hfilter]
  have hjoin : joinWith ['\n', '\n']
      ([m1, m2].map fun m => to_block_text m true)
      = to_block_text m1 true ++ ['\n', '\n'] ++ to_block_text m2 true := by
    simp [joinWith, List.intercalate, List.append_assoc]
  rw [hjoin]
  apply strip_eq_self
  · intro c hc
    rw [hblock m1 h1] at hc
    simp only [List.cons_append, List.append_assoc, List.head?_cons,
      Option.some_inj] at hc
    rw [← hc]; decide
  · intro c hc
    simp only [List.append_assoc, List.getLast?_append] at hc
    rcases hlast : (to_block_text m2 true).getLast? with _ | d
    · rw [List.getLast?_eq_none_iff, hblock m2 h2] at hlast
      simp at hlast
    · rw [hlast] at hc
      simp only [Option.or_some, Option.some_inj] at hc
      rw [← hc]
      exact hlast_blk m2 h2 d hlast

/-- Witness for C7 at the Kim message. -/
theorem formatter_spec_witness :
    to_block_text kimMsg true
      = '[' :: kimMsg.sender ++ [' ', '|', ' '] ++ fmtYMDHM kimMsg.sent_at ++
          [']', '\n'] ++ body_text kimMsg ∧
    output_text [kimMsg, kimMsg] true
      = to_block_text kimMsg true ++ ['\n', '\n'] ++ to_block_text kimMsg true :=
  ⟨formatter_spec.1 kimMsg (by decide),
    formatter_spec.2.2 kimMsg kimMsg (by decide) (by decide)⟩

-- Helper lemmas for the cell report extractor.

theorem digitVal_le9 {c : Char} (h : c.isDigit = true) : digitVal c ≤ 9 := by
  simp [Char.isDigit] at h
  have h3 : c.val.toNat ≤ 57 := UInt32.toNat_le_of_le (by decide) h.2
  unfold digitVal Char.toNat
  omega

theorem matchCellIdAt_le9 {s : List Char} {n : Nat} {rest : List Char}
    (h : matchCellIdAt s = some (n, rest)) : n ≤ 9 := by
  unfold matchCellIdAt at h
  split at h
  · split at h
    · split at h
      · split at h
        · injection h with h1
          injection h1 with h2 h3
          subst h2
          exact digitVal_le9 (by assumption)
        · cases h
      · cases h
    · split at h
      · split at h
        · injection h with h1
          injection h1 with h2 h3
          subst h2
          exact digitVal_le9 (by assumption)
        · cases h
      · cases h
  · cases h

theorem searchWith_imp {α : Type} (p : List Char → Option (α × List Char))
    (Q : α → Prop) (hp : ∀ s a rest, p s = some (a, rest) → Q a) :
    ∀ (s : List Char) (a : α) (ms : List Char),
      searchWith p s = some (a, ms) → Q a := by
  intro s
  induction s with
  | nil =>
    intro a ms h
    unfold searchWith at h
    split at h
    · next a0 r0 hp0 =>
      injection h with h1
      injection h1 with h2 h3
      subst h2
      exact hp _ _ _ hp0
    · cases h
  | cons c t ih =>
    intro a ms h
    unfold searchWith at h
    split at h
    · next a0 r0 hp0 =>
      injection h with h1
      injection h1 with h2 h3
      subst h2
      exact hp _ _ _ hp0
    · exact ih _ _ h

theorem cellIdSearch_le9 {s : List Char} {n : Nat}
    (h : cellIdSearch s = some n) : n ≤ 9 := by
  unfold cellIdSearch at h
  rcases hse : searchWith matchCellIdAt s with _ | pr
  · rw [hse] at h; cases h
  · rw [hse] at h
    rcases pr with ⟨a, ms⟩
    simp at h
    subst h
    exact searchWith_imp matchCellIdAt (fun a => a ≤ 9)
      (fun _ _ _ hp => matchCellIdAt_le9 hp) s a ms hse

-- Shape lemmas: each marker update only writes its own fields.

theorem updJaejeok_shape (mode : Option CellMode) (t : List Char)
    (r : CellReport) :
    ∃ a b, updJaejeok mode t r = { r with sunday_total := a, week_total := b } := by
  unfold updJaejeok
  split
  · cases mode with
    | none => exact ⟨r.sunday_total, r.week_total, rfl⟩
    | some m => cases m <;> exact ⟨_, _, rfl⟩
  · exact ⟨r.sunday_total, r.week_total, rfl⟩

theorem updChulseok_shape (mode : Option CellMode) (t : List Char)
    (r : CellReport) :
    ∃ a b, updChulseok mode t r
      = { r with sunday_attend := a, week_attend := b } := by
  unfold updChulseok
  split
  · cases mode with
    | none => exact ⟨r.sunday_attend, r.week_attend, rfl⟩
    | some m => cases m <;> exact ⟨_, _, rfl⟩
  · exact ⟨r.sunday_attend, r.week_attend, rfl⟩

theorem updBible_shape (t : List Char) (r : CellReport) :
    ∃ a, updBible t r = { r with bible := a } := by
  unfold updBible
  split
  · exact ⟨_, rfl⟩
  · exact ⟨r.bible, rfl⟩

theorem updPrayer_shape (t : List Char) (r : CellReport) :
    ∃ a, updPrayer t r = { r with prayer := a } := by
  unfold updPrayer
  split
  · exact ⟨_, rfl⟩
  · exact ⟨r.prayer, rfl⟩

theorem updOffering_shape {t : List Char} {r r' : CellReport}
    (h : updOffering t r = .ok r') : ∃ a, r' = { r with offering := a } := by
  unfold updOffering at h
  split at h
  · split at h
    · cases h
    · injection h with h1
      exact ⟨_, h1.symm⟩
  · injection h with h1
    exact ⟨r.offering, h1.symm⟩

theorem updAbsent_shape (mode : Option CellMode) (t : List Char)
    (r : CellReport) :
    ∃ a b, updAbsent mode t r
      = { r with absentees_sunday := a, absentees_week := b } := by
  unfold updAbsent
  split
  · cases mode with
    | none => exact ⟨r.absentees_sunday, r.absentees_week, rfl⟩
    | some m => cases m <;> exact ⟨_, _, rfl⟩
  · exact ⟨r.absentees_sunday, r.absentees_week, rfl⟩

-- Keep lemmas: an update is the identity when its marker is absent.

theorem updJaejeok_keep {mode : Option CellMode} {t : List Char}
    {r : CellReport} (h : isSubstr mkJaejeok t = false) :
    updJaejeok mode t r = r := by
  unfold updJaejeok; simp [h]

theorem updChulseok_keep {mode : Option CellMode} {t : List Char}
    {r : CellReport} (h : isSubstr mkChulseok t = false) :
    updChulseok mode t r = r := by
  unfold updChulseok; simp [h]

theorem updBible_keep {t : List Char} {r : CellReport}
    (h : isSubstr mkBibleRead t = false) : updBible t r = r := by
  unfold updBible; simp [h]

theorem updPrayer_keep {t : List Char} {r : CellReport}
    (h : isSubstr mkPrayer t = false) : updPrayer t r = r := by
  unfold updPrayer; simp [h]

theorem updOffering_keep {t : List Char} {r : CellReport}
    (h : isSubstr mkOffering t = false) : updOffering t r = .ok r := by
  unfold updOffering; simp [h]

theorem updAbsent_keep {mode : Option CellMode} {t : List Char}
    {r : CellReport} (h : isSubstr mkAbsent t = false) :
    updAbsent mode t r = r := by
  unfold updAbsent; simp [h]

theorem updDevotion_keep {t : List Char} {d : DevotionR}
    (h1 : isSubstr mkDevSunday t = false)
    (h2 : isSubstr mkDevAfternoon t = false)
    (h3 : isSubstr mkDevCLT t = false)
    (h4 : isSubstr mkDevBibleCollege t = false)
    (h5 : isSubstr mkDevFriday t = false)
    (h6 : isSubstr mkDevDawn t = false) :
    updDevotion t d = d := by
  unfold updDevotion; simp [h1, h2, h3, h4, h5, h6]

-- Projection forms of the shape lemmas, usable by `simp`.

theorem updJaejeok_keepF (mode : Option CellMode) (t : List Char)
    (r : CellReport) :
    (updJaejeok mode t r).cell_no = r.cell_no ∧
    (updJaejeok mode t r).leader = r.leader ∧
    (updJaejeok mode t r).sunday_attend = r.sunday_attend ∧
    (updJaejeok mode t r).week_attend = r.week_attend ∧
    (updJaejeok mode t r).bible = r.bible ∧
    (updJaejeok mode t r).prayer = r.prayer ∧
    (updJaejeok mode t r).offering = r.offering ∧
    (updJaejeok mode t r).absentees_sunday = r.absentees_sunday ∧
    (updJaejeok mode t r).absentees_week = r.absentees_week ∧
    (updJaejeok mode t r).devotion = r.devotion := by
  obtain ⟨a, b, e⟩ := updJaejeok_shape mode t r
  rw [e]
  exact ⟨rfl, rfl, rfl, rfl, rfl, rfl, rfl, rfl, rfl, rfl⟩

theorem updChulseok_keepF (mode : Option CellMode) (t : List Char)
    (r : CellReport) :
    (updChulseok mode t r).cell_no = r.cell_no ∧
    (updChulseok mode t r).leader = r.leader ∧
    (updChulseok mode t r).sunday_total = r.sunday_total ∧
    (updChulseok mode t r).week_total = r.week_total ∧
    (updChulseok mode t r).bible = r.bible ∧
    (updChulseok mode t r).prayer = r.prayer ∧
    (updChulseok mode t r).offering = r.offering ∧
    (updChulseok mode t r).absentees_sunday = r.absentees_sunday ∧
    (updChulseok mode t r).absentees_week = r.absentees_week ∧
    (updChulseok mode t r).devotion = r.devotion := by
  obtain ⟨a, b, e⟩ := updChulseok_shape mode t r
  rw [e]
  exact ⟨rfl, rfl, rfl, rfl, rfl, rfl, rfl, rfl, rfl, rfl⟩

theorem updBible_keepF (t : List Char) (r : CellReport) :
    (updBible t r).cell_no = r.cell_no ∧
    (updBible t r).leader = r.leader ∧
    (updBible t r).sunday_total = r.sunday_total ∧
    (updBible t r).week_total = r.week_total ∧
    (updBible t r).sunday_attend = r.sunday_attend ∧
    (updBible t r).week_attend = r.week_attend ∧
    (updBible t r).prayer = r.prayer ∧
    (updBible t r).offering = r.offering ∧
    (updBible t r).absentees_sunday = r.absentees_sunday ∧
    (updBible t r).absentees_week = r.absentees_week ∧
    (updBible t r).devotion = r.devotion := by
  obtain ⟨a, e⟩ := updBible_shape t r
  rw [e]
  exact ⟨rfl, rfl, rfl, rfl, rfl, rfl, rfl, rfl, rfl, rfl, rfl⟩

theorem updPrayer_keepF (t : List Char) (r : CellReport) :
    (updPrayer t r).cell_no = r.cell_no ∧
    (updPrayer t r).leader = r.leader ∧
    (updPrayer t r).sunday_total = r.sunday_total ∧
    (updPrayer t r).week_total = r.week_total ∧
    (updPrayer t r).sunday_attend = r.sunday_attend ∧
    (updPrayer t r).week_attend = r.week_attend ∧
    (updPrayer t r).bible = r.bible ∧
    (updPrayer t r).offering = r.offering ∧
    (updPrayer t r).absentees_sunday = r.absentees_sunday ∧
    (updPrayer t r).absentees_week = r.absentees_week ∧
    (updPrayer t r).devotion = r.devotion := by
  obtain ⟨a, e⟩ := updPrayer_shape t r
  rw [e]
  exact ⟨rfl, rfl, rfl, rfl, rfl, rfl, rfl, rfl, rfl, rfl, rfl⟩

theorem updAbsent_keepF (mode : Option CellMode) (t : List Char)
    (r : CellReport) :
    (updAbsent mode t r).cell_no = r.cell_no ∧
    (updAbsent mode t r).leader = r.leader ∧
    (updAbsent mode t r).sunday_total = r.sunday_total ∧
    (updAbsent mode t r).week_total = r.week_total ∧
    (updAbsent mode t r).sunday_attend = r.sunday_attend ∧
    (updAbsent mode t r).week_attend = r.week_attend ∧
    (updAbsent mode t r).bible = r.bible ∧
    (updAbsent mode t r).prayer = r.prayer ∧
    (updAbsent mode t r).offering = r.offering ∧
    (updAbsent mode t r).devotion = r.devotion := by
  obtain ⟨a, b, e⟩ := updAbsent_shape mode t r
  rw [e]
  exact ⟨rfl, rfl, rfl, rfl, rfl, rfl, rfl, rfl, rfl, rfl⟩

-- Per-line preservation lemmas for `cellLine`.

theorem cellLine_cellno {mode : Option CellMode} {t : List Char}
    {r r' : CellReport} (h : cellLine mode t r = .ok r') :
    ((r'.cell_no, r'.leader) : Nat × List Char) = (r.cell_no, r.leader) := by
  simp only [cellLine] at h
  split at h
  · cases h
  · next rr heq =>
    injection h with h1
    subst h1
    obtain ⟨aoff, eoff⟩ := updOffering_shape heq
    subst eoff
    simp [updAbsent_keepF, updJaejeok_keepF, updChulseok_keepF,
      updBible_keepF, updPrayer_keepF]

theorem cellLine_jj {mode : Option CellMode} {t : List Char}
    {r r' : CellReport} (hm : isSubstr mkJaejeok t = false)
    (h : cellLine mode t r = .ok r') :
    ((r'.sunday_total, r'.week_total) : Nat × Nat)
      = (r.sunday_total, r.week_total) := by
  simp only [cellLine] at h
  split at h
  · cases h
  · next rr heq =>
    injection h with h1
    subst h1
    obtain ⟨aoff, eoff⟩ := updOffering_shape heq
    subst eoff
    simp [updAbsent_keepF, updJaejeok_keep hm, updChulseok_keepF,
      updBible_keepF, updPrayer_keepF]

theorem cellLine_chulseok {mode : Option CellMode} {t : List Char}
    {r r' : CellReport} (hm : isSubstr mkChulseok t = false)
    (h : cellLine mode t r = .ok r') :
    ((r'.sunday_attend, r'.week_attend) : Nat × Nat)
      = (r.sunday_attend, r.week_attend) := by
  simp only [cellLine] at h
  split at h
  · cases h
  · next rr heq =>
    injection h with h1
    subst h1
    obtain ⟨aoff, eoff⟩ := updOffering_shape heq
    subst eoff
    simp [updAbsent_keepF, updJaejeok_keepF, updChulseok_keep hm,
      updBible_keepF, updPrayer_keepF]

theorem cellLine_bible {mode : Option CellMode} {t : List Char}
    {r r' : CellReport} (hm : isSubstr mkBibleRead t = false)
    (h : cellLine mode t r = .ok r') : r'.bible = r.bible := by
  simp only [cellLine] at h
  split at h
  · cases h
  · next rr heq =>
    injection h with h1
    subst h1
    obtain ⟨aoff, eoff⟩ := updOffering_shape heq
    subst eoff
    simp [updAbsent_keepF, updJaejeok_keepF, updChulseok_keepF,
      updBible_keep hm, updPrayer_keepF]

theorem cellLine_prayer {mode : Option CellMode} {t : List Char}
    {r r' : CellReport} (hm : isSubstr mkPrayer t = false)
    (h : cellLine mode t r = .ok r') : r'.prayer = r.prayer := by
  simp only [cellLine] at h
  split at h
  · cases h
  · next rr heq =>
    injection h with h1
    subst h1
    obtain ⟨aoff, eoff⟩ := updOffering_shape heq
    subst eoff
    simp [updAbsent_keepF, updJaejeok_keepF, updChulseok_keepF,
      updBible_keepF, updPrayer_keep hm]

theorem cellLine_offering {mode : Option CellMode} {t : List Char}
    {r r' : CellReport} (hm : isSubstr mkOffering t = false)
    (h : cellLine mode t r = .ok r') : r'.offering = r.offering := by
  simp only [cellLine] at h
  split at h
  · cases h
  · next rr heq =>
    injection h with h1
    subst h1
    rw [updOffering_keep hm] at heq
    injection heq with h2
    subst h2
    simp [updAbsent_keepF, updJaejeok_keepF, updChulseok_keepF,
      updBible_keepF, updPrayer_keepF]

theorem cellLine_absent {mode : Option CellMode} {t : List Char}
    {r r' : CellReport} (hm : isSubstr mkAbsent t = false)
    (h : cellLine mode t r = .ok r') :
    ((r'.absentees_sunday, r'.absentees_week) : List Char × List Char)
      = (r.absentees_sunday, r.absentees_week) := by
  simp only [cellLine] at h
  split at h
  · cases h
  · next rr heq =>
    injection h with h1
    subst h1
    obtain ⟨aoff, eoff⟩ := updOffering_shape heq
    subst eoff
    simp [updAbsent_keep hm, updJaejeok_keepF, updChulseok_keepF,
      updBible_keepF, updPrayer_keepF]

theorem cellLine_devotion {mode : Option CellMode} {t : List Char}
    {r r' : CellReport}
    (h1 : isSubstr mkDevSunday t = false)
    (h2 : isSubstr mkDevAfternoon t = false)
    (h3 : isSubstr mkDevCLT t = false)
    (h4 : isSubstr mkDevBibleCollege t = false)
    (h5 : isSubstr mkDevFriday t = false)
    (h6 : isSubstr mkDevDawn t = false)
    (h : cellLine mode t r = .ok r') : r'.devotion = r.devotion := by
  simp only [cellLine] at h
  split at h
  · cases h
  · next rr heq =>
    injection h with hh
    subst hh
    obtain ⟨aoff, eoff⟩ := updOffering_shape heq
    subst eoff
    simp [updDevotion_keep h1 h2 h3 h4 h5 h6, updAbsent_keepF,
      updJaejeok_keepF, updChulseok_keepF, updBible_keepF, updPrayer_keepF]

/-- Any function of the report that every non-section line preserves is
preserved by the whole scan loop. -/
theorem cellLoop_keep {α : Type} (f : CellReport → α) :
    ∀ (lines : List (List Char)),
      (∀ l ∈ lines, ∀ (mode : Option CellMode) (r r2 : CellReport),
        cellLine mode (strip l) r = .ok r2 → f r2 = f r) →
      ∀ (mode : Option CellMode) (r r' : CellReport),
        cellLoop mode r lines = .ok r' → f r' = f r := by
  intro lines
  induction lines with
  | nil =>
    intro _ mode r r' h
    simp only [cellLoop] at h
    injection h with h1
    rw [h1]
  | cons line rest ih =>
    intro hl mode r r' h
    simp only [cellLoop] at h
    split at h
    · exact ih (fun l hm => hl l (List.mem_cons_of_mem _ hm)) _ _ _ h
    · split at h
      · exact ih (fun l hm => hl l (List.mem_cons_of_mem _ hm)) _ _ _ h
      · split at h
        · cases h
        · next r2 heq =>
          have h2 := hl line (List.mem_cons_self _ _) mode r r2 heq
          have h3 := ih (fun l hm => hl l (List.mem_cons_of_mem _ hm)) _ _ _ h
          rw [h3, h2]

def crashMsg : KMessage :=
  ⟨['K'], ⟨2026, 1, 4, 21, 5⟩, [],
    [['3', '-', '4', '셀'], ['-', ' ', '헌', '금', ' ', ',', '원']]⟩

/-- Claim C6 counterexample: this message body contains a cell-identifier
marker, yet `parse_cell_report` returns no CellReport at all — the
offering line whose money match is all commas makes `int("")` raise, so
the call errors instead of producing a report. -/
theorem parse_cell_report_cex :
    cellIdSearch (body_text crashMsg) = some 4 ∧
    parse_cell_report crashMsg = .error () := by decide

/-- Claim C6 (amended): `parse_cell_report` returns no report exactly
when the body has no cell-identifier marker; whenever it does return a
report, the report's leader is the message sender and every field whose
marker line is absent from the body keeps its zero/empty default (the
only non-returning case is the propagated number-parse error from a
digit-free offering amount). -/
theorem parse_cell_report_spec (msg : KMessage) :
    (parse_cell_report msg = .ok none ↔
      cellIdSearch (body_text msg) = none) ∧
    (∀ r : CellReport, parse_cell_report msg = .ok (some r) →
      r.leader = msg.sender ∧
      ((∀ l ∈ splitlinesPy (body_text msg),
          isSubstr mkJaejeok (strip l) = false) →
        r.sunday_total = 0 ∧ r.week_total = 0) ∧
      ((∀ l ∈ splitlinesPy (body_text msg),
          isSubstr mkChulseok (strip l) = false) →
        r.sunday_attend = 0 ∧ r.week_attend = 0) ∧
      ((∀ l ∈ splitlinesPy (body_text msg),
          isSubstr mkBibleRead (strip l) = false) → r.bible = 0) ∧
      ((∀ l ∈ splitlinesPy (body_text msg),
          isSubstr mkPrayer (strip l) = false) → r.prayer = 0) ∧
      ((∀ l ∈ splitlinesPy (body_text msg),
          isSubstr mkOffering (strip l) = false) → r.offering = 0) ∧
      ((∀ l ∈ splitlinesPy (body_text msg),
          isSubstr mkAbsent (strip l) = false) →
        r.absentees_sunday = [] ∧ r.absentees_week = []) ∧
      ((∀ l ∈ splitlinesPy (body_text msg),
          isSubstr mkDevSunday (strip l) = false ∧
          isSubstr mkDevAfternoon (strip l) = false ∧
          isSubstr mkDevCLT (strip l) = false ∧
          isSubstr mkDevBibleCollege (strip l) = false ∧
          isSubstr mkDevFriday (strip l) = false ∧
          isSubstr mkDevDawn (strip l) = false) →
        r.devotion = {})) := by
  constructor
  · simp only [parse_cell_report]
    rcases hcs : cellIdSearch (body_text msg) with _ | n
    · simp
    · rcases hloop : cellLoop none { cell_no := n, leader := msg.sender }
          (splitlinesPy (body_text msg)) with _ | r2 <;> simp [hloop]
  · intro r hr
    simp only [parse_cell_report] at hr
    rcases hcs : cellIdSearch (body_text msg) with _ | n
    · simp only [hcs] at hr
      simp at hr
    · simp only [hcs] at hr
      rcases hloop : cellLoop none { cell_no := n, leader := msg.sender }
          (splitlinesPy (body_text msg)) with _ | r2
      · simp only [hloop] at hr
        simp at hr
      · simp only [hloop] at hr
        injection hr with hr1
        injection hr1 with hr2
        subst hr2
        refine ⟨?_, ?_, ?_, ?_, ?_, ?_, ?_, ?_⟩
        · have hp := cellLoop_keep (fun x => ((x.cell_no, x.leader) : Nat × List Char)) _
            (fun l _ mode r0 r2 heq => cellLine_cellno heq) none _ _ hloop
          exact congrArg Prod.snd hp
        · intro hmk
          have hp := cellLoop_keep (fun x => ((x.sunday_total, x.week_total) : Nat × Nat)) _
            (fun l hm mode r0 r2 heq => cellLine_jj (hmk l hm) heq) none _ _ hloop
          simpa using hp
        · intro hmk
          have hp := cellLoop_keep (fun x => ((x.sunday_attend, x.week_attend) : Nat × Nat)) _
            (fun l hm mode r0 r2 heq => cellLine_chulseok (hmk l hm) heq) none _ _ hloop
          simpa using hp
        · intro hmk
          have hp := cellLoop_keep (fun x => x.bible) _
            (fun l hm mode r0 r2 heq => cellLine_bible (hmk l hm) heq) none _ _ hloop
          simpa using hp
        · intro hmk
          have hp := cellLoop_keep (fun x => x.prayer) _
            (fun l hm mode r0 r2 heq => cellLine_prayer (hmk l hm) heq) none _ _ hloop
          simpa using hp
        · intro hmk
          have hp := cellLoop_keep (fun x => x.offering) _
            (fun l hm mode r0 r2 heq => cellLine_offering (hmk l hm) heq) none _ _ hloop
          simpa using hp
        · intro hmk
          have hp := cellLoop_keep
            (fun x => ((x.absentees_sunday, x.absentees_week) : List Char × List Char)) _
            (fun l hm mode r0 r2 heq => cellLine_absent (hmk l hm) heq) none _ _ hloop
          simpa using hp
        · intro hmk
          have hp := cellLoop_keep (fun x => x.devotion) _
            (fun l hm mode r0 r2 heq => by
              obtain ⟨d1, d2, d3, d4, d5, d6⟩ := hmk l hm
              exact cellLine_devotion d1 d2 d3 d4 d5 d6 heq) none _ _ hloop
          simpa using hp

def cellMsgW : KMessage :=
  ⟨['K'], ⟨2026, 1, 4, 21, 5⟩, [], [['3', '-', '4', '셀']]⟩

def cellRepW : CellReport := { cell_no := 4, leader := ['K'] }

/-- Witness for C6 at a body containing only the cell marker. -/
theorem parse_cell_report_witness :
    cellRepW.leader = cellMsgW.sender ∧
    (cellRepW.sunday_total = 0 ∧ cellRepW.week_total = 0) ∧
    cellRepW.devotion = {} := by
  have h := (parse_cell_report_spec cellMsgW).2 cellRepW (by decide)
  exact ⟨h.1, h.2.1 (by decide), h.2.2.2.2.2.2.2 (by decide)⟩

/-- Claim C10: every produced CellReport has `cell_no` between 0 and 9:
the capture is the single digit after the literal `3` (and optional
separator), so the leading `3` is not part of `cell_no` and multi-digit
identifiers are never captured whole. -/
theorem cell_no_range_spec :
    (∀ (msg : KMessage) (r : CellReport),
        parse_cell_report msg = .ok (some r) → r.cell_no ≤ 9) ∧
    cellIdSearch ['3', '4', '셀'] = some 4 ∧
    cellIdSearch ['3', '-', '4', '셀'] = some 4 ∧
    cellIdSearch ['3', ' ', '7', '셀'] = some 7 ∧
    cellIdSearch ['1', '2', '셀'] = none := by
  refine ⟨?_, by decide, by decide, by decide, by decide⟩
  intro msg r hr
  simp only [parse_cell_report] at hr
  rcases hcs : cellIdSearch (body_text msg) with _ | n
  · simp only [hcs] at hr
    simp at hr
  · simp only [hcs] at hr
    rcases hloop : cellLoop none { cell_no := n, leader := msg.sender }
        (splitlinesPy (body_text msg)) with _ | r2
    · simp only [hloop] at hr
      simp at hr
    · simp only [hloop] at hr
      injection hr with hr1
      injection hr1 with hr2
      subst hr2
      have hp := cellLoop_keep (fun x => x.cell_no) _
        (fun l _ mode r0 r2 heq =>
          congrArg Prod.fst (cellLine_cellno heq)) none _ _ hloop
      have hn : r2.cell_no = n := hp
      rw [hn]
      exact cellIdSearch_le9 hcs

/-- Witness for C10 at the marker-only message. -/
theorem cell_no_range_witness : cellRepW.cell_no ≤ 9 :=
  cell_no_range_spec.1 cellMsgW cellRepW (by decide)

def badDividerText : List Char :=
  ['-', '-', '-', ' ', '2', '0', '2', '6', '년', ' ', '1', '3', '월', ' ',
   '3', '2', '일', ' ', '-', '-', '-']

def badYmdText : List Char :=
  ['2', '0', '2', '6', '년', ' ', '1', '3', '월', ' ', '3', '2', '일', ' ',
   '9', ':', '0', '5']

/-- Claim C8: the datetime recognizer returns no match when neither
pattern matches; when a pattern does match but the numeric components are
out of range, constructing the timestamp is an error that propagates out
of the call (and, for a malformed date-divider line, out of the whole
segmentation pass) instead of the line being skipped. -/
theorem parse_datetime_err_spec :
    (∀ (text : List Char) (today : Date),
        searchWith matchYMDAt text = none →
        searchWith matchMDAt text = none →
        parse_kakao_datetime text today = .ok none) ∧
    (∀ (text : List Char) (today : Date) (y mo d : Nat) (ap : Option AMPM)
        (h mi : Nat) (ms : List Char),
        searchWith matchYMDAt text = some ((y, mo, d, ap, h, mi), ms) →
        mkDateTime y mo d (ampm_to_24h h ap) mi = .error () →
        parse_kakao_datetime text today = .error ()) ∧
    (∀ (text : List Char) (today : Date) (mo d : Nat) (ap : Option AMPM)
        (h mi : Nat) (ms : List Char),
        searchWith matchYMDAt text = none →
        searchWith matchMDAt text = some ((mo, d, ap, h, mi), ms) →
        (∀ y, infer_year mo d today = .ok y →
          mkDateTime y mo d (ampm_to_24h h ap) mi = .error ()) →
        parse_kakao_datetime text today = .error ()) ∧
    split_messages badDividerText ⟨2026, 1, 10⟩ = .error () := by
  refine ⟨?_, ?_, ?_, by decide⟩
  · intro text today h1 h2
    simp only [parse_kakao_datetime, h1, h2]
  · intro text today y mo d ap h mi ms h1 h2
    simp only [parse_kakao_datetime, h1, h2]
  · intro text today mo d ap h mi ms h1 h2 h3
    simp only [parse_kakao_datetime, h1, h2]
    rcases hy : infer_year mo d today with _ | y
    · rfl
    · simp only [h3 y hy]

/-- Witness for C8: a line with no date pattern, and a full-pattern line
with month 13 / day 32. -/
theorem parse_datetime_err_witness :
    parse_kakao_datetime ['h', 'i'] ⟨2026, 1, 10⟩ = .ok none ∧
    parse_kakao_datetime badYmdText ⟨2026, 1, 10⟩ = .error () :=
  ⟨parse_datetime_err_spec.1 ['h', 'i'] ⟨2026, 1, 10⟩ (by decide) (by decide),
    parse_datetime_err_spec.2.1 badYmdText ⟨2026, 1, 10⟩ 2026 13 32 none 9 5
      badYmdText (by decide) (by decide)⟩

theorem contains_false_iff {a : Char} {l : List Char} :
    (l.contains a = false) ↔ a ∉ l := by
  rw [show l.contains a = List.elem a l from rfl, Bool.eq_false_iff]
  exact not_congr List.elem_iff

/-- Claim C9 counterexample: the trimmed line `a TAB b` contains internal
whitespace (a tab), yet `looks_like_name` accepts it — the source only
excludes the space character, not all whitespace. -/
theorem looks_like_name_cex :
    ¬ (looks_like_name ['a', '\t', 'b'] = true ↔
        (strip ['a', '\t', 'b'] ≠ [] ∧
         (strip ['a', '\t', 'b']).length ≤ 20 ∧
         (∀ c ∈ strip ['a', '\t', 'b'], isPyWS c = false) ∧
         (strip ['a', '\t', 'b']).head? ≠ some '[')) := by decide

/-- Claim C9 (amended): `looks_like_name` accepts the trimmed line
exactly when it is nonempty, at most 20 characters, contains no space
character (other whitespace such as tabs is allowed), and does not start
with an opening bracket; and the name-line branch of the segmenter is
only reachable when no message is open and an ambient date is set —
with a message open or no ambient date, a non-header line falls through
to body accumulation. -/
theorem looks_like_name_spec :
    (∀ s : List Char, looks_like_name s = true ↔
      (strip s ≠ [] ∧ (strip s).length ≤ 20 ∧ ¬ ' ' ∈ strip s ∧
        (strip s).head? ≠ some '[')) ∧
    (∀ (st : SplitState) (line next : List Char),
      st.current_dt ≠ none ∨ st.current_date = none →
      splitNameStep st line next = none) ∧
    (∀ (st : SplitState) (l : List Char) (rest : List (List Char)),
      splitLine1 st l = none →
      (st.current_dt ≠ none ∨ st.current_date = none) →
      splitLoop st (l :: rest) = splitLoop (accBody st l) rest) := by
  have hname : ∀ (st : SplitState) (line next : List Char),
      st.current_dt ≠ none ∨ st.current_date = none →
      splitNameStep st line next = none := by
    intro st line next h
    unfold splitNameStep
    rcases hcd : st.current_date with _ | cd
    · rfl
    · rcases hdt : st.current_dt with _ | dt
      · rcases h with h | h
        · exact absurd hdt h
        · rw [hcd] at h; cases h
      · rfl
  refine ⟨?_, hname, ?_⟩
  · intro s
    unfold looks_like_name
    simp only [Bool.and_eq_true, decide_eq_true_eq, Bool.not_eq_true',
      contains_false_iff, Nat.one_le_iff_ne_zero, ne_eq,
      List.length_eq_zero]
    tauto
  · intro st l rest hs1 h
    cases rest with
    | nil => simp only [splitLoop, hs1]
    | cons next rest2 =>
      simp only [splitLoop, hs1, hname st (strip l) next h]

/-- Witness for C9: a state with an open message ignores a name-shaped
line and appends it to the body. -/
theorem looks_like_name_witness :
    (looks_like_name ['K', 'i', 'm'] = true ↔
      (strip ['K', 'i', 'm'] ≠ [] ∧ (strip ['K', 'i', 'm']).length ≤ 20 ∧
        ¬ ' ' ∈ strip ['K', 'i', 'm'] ∧
        (strip ['K', 'i', 'm']).head? ≠ some '[')) ∧
    splitLoop ⟨[], some ⟨2026, 1, 4⟩, some ['K'], some ⟨2026, 1, 4, 9, 0⟩,
        [], []⟩ [['K', 'i', 'm']]
      = splitLoop (accBody ⟨[], some ⟨2026, 1, 4⟩, some ['K'],
          some ⟨2026, 1, 4, 9, 0⟩, [], []⟩ ['K', 'i', 'm']) [] :=
  ⟨looks_like_name_spec.1 ['K', 'i', 'm'],
    looks_like_name_spec.2.2 ⟨[], some ⟨2026, 1, 4⟩, some ['K'],
        some ⟨2026, 1, 4, 9, 0⟩, [], []⟩ ['K', 'i', 'm'] []
      (by decide) (Or.inl (by decide))⟩

-- Invariant machinery for the segmenter.

theorem accBody_messages (st : SplitState) (l : List Char) :
    (accBody st l).messages = st.messages := by
  unfold accBody; split <;> rfl

theorem flush_inv (st : SplitState)
    (hP : ∀ m ∈ st.messages, m.body_lines ≠ []) :
    ∀ m ∈ (flushState st).messages, m.body_lines ≠ [] := by
  intro m hm
  unfold flushState at hm
  simp only at hm
  split at hm
  · split at hm
    · exact hP m hm
    · next hbody =>
      rcases List.mem_append.mp hm with h | h
      · exact hP m h
      · have hs := List.mem_singleton.mp h
        subst hs
        exact hbody
  · exact hP m hm

theorem splitLine1_inv {st : SplitState} {l : List Char} {st2 : SplitState}
    (h : splitLine1 st l = some (.ok st2))
    (hP : ∀ m ∈ st.messages, m.body_lines ≠ []) :
    ∀ m ∈ st2.messages, m.body_lines ≠ [] := by
  simp only [splitLine1] at h
  repeat' split at h
  all_goals first
    | exact Option.noConfusion h
    | (injection h with h1; exact Except.noConfusion h1)
    | (injection h with h1; injection h1 with h2; subst h2;
        exact flush_inv st hP)

theorem splitNameStep_inv {st : SplitState} {line next : List Char}
    {st2 : SplitState} (h : splitNameStep st line next = some (.ok st2))
    (hP : ∀ m ∈ st.messages, m.body_lines ≠ []) :
    ∀ m ∈ st2.messages, m.body_lines ≠ [] := by
  simp only [splitNameStep] at h
  repeat' split at h
  all_goals first
    | exact Option.noConfusion h
    | (injection h with h1; exact Except.noConfusion h1)
    | (injection h with h1; injection h1 with h2; subst h2;
        exact flush_inv st hP)

theorem splitLoop_inv (st : SplitState) (ls : List (List Char)) :
    ∀ st' : SplitState, splitLoop st ls = .ok st' →
      (∀ m ∈ st.messages, m.body_lines ≠ []) →
      ∀ m ∈ st'.messages, m.body_lines ≠ [] := by
  induction st, ls using splitLoop.induct with
  | case1 st =>
    intro st' h hP
    simp only [splitLoop] at h
    injection h with h1
    subst h1
    exact hP
  | case2 st l e he =>
    intro st' h hP
    simp only [splitLoop, he] at h
    exact Except.noConfusion h
  | case3 st l st2 he ih =>
    intro st' h hP
    simp only [splitLoop, he] at h
    exact ih st' h (splitLine1_inv he hP)
  | case4 st l he ih =>
    intro st' h hP
    simp only [splitLoop, he] at h
    refine ih st' h ?_
    simp only [accBody_messages]
    exact hP
  | case5 st l next rest2 e he =>
    intro st' h hP
    simp only [splitLoop, he] at h
    exact Except.noConfusion h
  | case6 st l next rest2 st2 he ih =>
    intro st' h hP
    simp only [splitLoop, he] at h
    exact ih st' h (splitLine1_inv he hP)
  | case7 st l next rest2 he e hn =>
    intro st' h hP
    simp only [splitLoop, he, hn] at h
    exact Except.noConfusion h
  | case8 st l next rest2 he st2 hn ih =>
    intro st' h hP
    simp only [splitLoop, he, hn] at h
    exact ih st' h (splitNameStep_inv hn hP)
  | case9 st l next rest2 he hn ih =>
    intro st' h hP
    simp only [splitLoop, he, hn] at h
    refine ih st' h ?_
    simp only [accBody_messages]
    exact hP

def cexText : List Char :=
  ['2', '0', '2', '3', '년', ' ', '1', '0', '월', ' ', '1', '1', '일', ' ',
   '오', '전', ' ', '8', ':', '0', '7', ',', ' ', 'K', 'i', 'm', ' ', ':',
   '\n']

def cexMsg : KMessage :=
  ⟨['K', 'i', 'm'], ⟨2023, 10, 11, 8, 7⟩,
   [['2', '0', '2', '3', '년', ' ', '1', '0', '월', ' ', '1', '1', '일', ' ',
     '오', '전', ' ', '8', ':', '0', '7', ',', ' ', 'K', 'i', 'm']],
   [[]]⟩

/-- Claim C1 counterexample: an android header with empty trailing body
followed by one empty line yields a Message whose single body line is
empty — so an emitted Message need not contain any non-empty body line. -/
theorem split_nonempty_cex :
    split_messages cexText ⟨2026, 1, 10⟩ = .ok [cexMsg] ∧
    ¬ (∀ m ∈ [cexMsg], ∃ l ∈ m.body_lines, strip l ≠ []) := by decide

/-- Claim C1 (amended): every Message emitted by `split_messages` has at
least one body line (possibly empty or whitespace-only), and an
accumulator with no body line or no resolved timestamp is discarded
silently at flush, producing no Message. -/
theorem split_messages_flush_inv :
    (∀ (raw : List Char) (today : Date) (msgs : List KMessage),
      split_messages raw today = .ok msgs →
      ∀ m ∈ msgs, m.body_lines ≠ []) ∧
    (∀ st : SplitState,
      st.current_body_lines = [] ∨ st.current_dt = none →
      (flushState st).messages = st.messages) := by
  constructor
  · intro raw today msgs h m hm
    unfold split_messages at h
    rcases hloop : splitLoop initState (splitOnNL (normEol raw)) with _ | stf
    · rw [hloop] at h; cases h
    · rw [hloop] at h
      injection h with h1
      subst h1
      refine flush_inv stf ?_ m hm
      refine splitLoop_inv initState _ stf hloop ?_
      intro m0 hm0
      simp [initState] at hm0
  · intro st hst
    unfold flushState
    simp only
    rcases hdt : st.current_dt with _ | dt
    · rfl
    · rcases hst with h | h
      · simp [h]
      · rw [hdt] at h; cases h

/-- Witness for C1 at the counterexample transcript and a bodyless
accumulator. -/
theorem split_messages_flush_inv_witness :
    (∀ m ∈ [cexMsg], m.body_lines ≠ []) ∧
    (flushState ⟨[], none, some ['K'], some ⟨2026, 1, 4, 9, 0⟩, [], []⟩).messages
      = ([] : List KMessage) :=
  ⟨split_messages_flush_inv.1 cexText ⟨2026, 1, 10⟩ [cexMsg] (by decide),
    split_messages_flush_inv.2 ⟨[], none, some ['K'], some ⟨2026, 1, 4, 9, 0⟩,
      [], []⟩ (Or.inl (by decide))⟩

def c2Text : List Char :=
  ['-', '-', '-', ' ', '2', '0', '2', '6', '년', ' ', '1', '월', ' ', '4',
   '일', ' ', '일', '요', '일', ' ', '-', '-', '-', '\n', 'K', 'i', 'm',
   '\n', '오', '후', ' ', '9', ':', '0', '5', '\n', 'h', 'e', 'l', 'l',
   'o', ' ', 'w', 'o', 'r', 'l', 'd', '\n', '2', '0', '2', '6', '년', ' ',
   '1', '월', ' ', '8', '일', ' ', '목', '요', '일', '\n', '[', 'L', 'e',
   'e', ']', ' ', '[', '오', '전', ' ', '1', '1', ':', '0', '3', ']', ' ',
   'h', 'i']

def c2Msg1 : KMessage :=
  ⟨['K', 'i', 'm'], ⟨2026, 1, 4, 21, 5⟩,
   [['K', 'i', 'm'], ['오', '후', ' ', '9', ':', '0', '5']],
   [['h', 'e', 'l', 'l', 'o', ' ', 'w', 'o', 'r', 'l', 'd']]⟩

def c2Msg2 : KMessage :=
  ⟨['L', 'e', 'e'], ⟨2026, 1, 8, 11, 3⟩,
   [['[', 'L', 'e', 'e', ']', ' ', '[', '오', '전', ' ', '1', '1', ':',
     '0', '3', ']']],
   [['h', 'i']]⟩

/-- Claim C2: a date-divider (or standalone date) line first flushes any
open message and only then updates the ambient date, so the flushed
message keeps the timestamp it resolved from the prior ambient date; the
flush emits the open message with exactly its accumulated timestamp; a
message opened afterwards by the inline form takes year, month and day
from the new ambient date; and on a concrete mixed transcript the message
before a mid-stream date line carries the old date while the message
after it carries the new one. -/
theorem divider_flush_spec :
    (∀ (st : SplitState) (l : List Char) (rest : List (List Char))
        (y m d : Nat) (cd : Date),
      dividerSearch (strip l) = some (y, m, d) →
      mkDate y m d = .ok cd →
      splitLoop st (l :: rest)
        = splitLoop { flushState st with current_date := some cd } rest) ∧
    (∀ (st : SplitState) (l : List Char) (rest : List (List Char))
        (y m d : Nat) (cd : Date),
      dividerSearch (strip l) = none →
      dateLineFull (strip l) = some (y, m, d) →
      mkDate y m d = .ok cd →
      splitLoop st (l :: rest)
        = splitLoop { flushState st with current_date := some cd } rest) ∧
    (∀ (st : SplitState) (dt0 : DateTime),
      st.current_dt = some dt0 → st.current_body_lines ≠ [] →
      (flushState st).messages = st.messages ++
        [⟨senderOrUnknown st.current_sender, dt0, st.current_header_lines,
          st.current_body_lines⟩]) ∧
    (∀ (st : SplitState) (l : List Char) (rest : List (List Char))
        (cd : Date) (g : InlineG) (dt : DateTime),
      st.current_date = some cd →
      dividerSearch (strip l) = none → dateLineFull (strip l) = none →
      androidMatch (strip l) = none → inlineMatch (strip l) = some g →
      mkDateTime cd.year cd.month cd.day (ampm24 g.ampm g.h) g.min = .ok dt →
      dt.year = cd.year ∧ dt.month = cd.month ∧ dt.day = cd.day ∧
      splitLoop st (l :: rest)
        = splitLoop { flushState st with
            current_sender := some g.sender, current_dt := some dt,
            current_header_lines := [inlineHeader g],
            current_body_lines :=
              if strip g.body = [] then [] else [strip g.body] } rest) ∧
    (∀ (st : SplitState) (l next : List Char) (rest2 : List (List Char))
        (cd : Date) (ap : AMPM) (h mi : Nat) (dt : DateTime),
      st.current_date = some cd → st.current_dt = none →
      splitLine1 st l = none →
      looks_like_name (strip l) = true →
      timeOnlyFull (strip next) = some (ap, h, mi) →
      mkDateTime cd.year cd.month cd.day (ampm24 ap h) mi = .ok dt →
      dt.year = cd.year ∧ dt.month = cd.month ∧ dt.day = cd.day ∧
      splitLoop st (l :: next :: rest2)
        = splitLoop { flushState st with
            current_sender := some (strip l), current_dt := some dt,
            current_header_lines := [strip l, strip next],
            current_body_lines := [] } rest2) ∧
    split_messages c2Text ⟨2026, 1, 10⟩ = .ok [c2Msg1, c2Msg2] := by
  refine ⟨?_, ?_, ?_, ?_, ?_, by decide⟩
  · intro st l rest y m d cd hdiv hmk
    have hs1 : splitLine1 st l
        = some (.ok { flushState st with current_date := some cd }) := by
      simp only [splitLine1, hdiv, hmk]
    cases rest with
    | nil => simp only [splitLoop, hs1]
    | cons next rest2 => simp only [splitLoop, hs1]
  · intro st l rest y m d cd hdiv hdl hmk
    have hs1 : splitLine1 st l
        = some (.ok { flushState st with current_date := some cd }) := by
      simp only [splitLine1, hdiv, hdl, hmk]
    cases rest with
    | nil => simp only [splitLoop, hs1]
    | cons next rest2 => simp only [splitLoop, hs1]
  · intro st dt0 hdt hbody
    unfold flushState
    simp only [hdt]
    rw [if_neg hbody]
  · intro st l rest cd g dt hcd hdiv hdl hand hinl hmk
    have hdt : dt = ⟨cd.year, cd.month, cd.day, ampm24 g.ampm g.h, g.min⟩ := by
      unfold mkDateTime at hmk
      split at hmk
      · injection hmk with h1; exact h1.symm
      · exact Except.noConfusion hmk
    refine ⟨by rw [hdt], by rw [hdt], by rw [hdt], ?_⟩
    have hs1 : splitLine1 st l = some (.ok { flushState st with
        current_sender := some g.sender, current_dt := some dt,
        current_header_lines := [inlineHeader g],
        current_body_lines :=
          if strip g.body = [] then [] else [strip g.body] }) := by
      simp only [splitLine1, hdiv, hdl, hand, hcd, hinl, hmk]
    cases rest with
    | nil => simp only [splitLoop, hs1]
    | cons next rest2 => simp only [splitLoop, hs1]
  · intro st l next rest2 cd ap h mi dt hcd hdt0 hs1 hlln htof hmk
    have hdt : dt = ⟨cd.year, cd.month, cd.day, ampm24 ap h, mi⟩ := by
      unfold mkDateTime at hmk
      split at hmk
      · injection hmk with h1; exact h1.symm
      · exact Except.noConfusion hmk
    refine ⟨by rw [hdt], by rw [hdt], by rw [hdt], ?_⟩
    have hns : splitNameStep st (strip l) next = some (.ok { flushState st with
        current_sender := some (strip l), current_dt := some dt,
        current_header_lines := [strip l, strip next],
        current_body_lines := [] }) := by
      simp only [splitNameStep, hcd, hdt0, hlln, htof, hmk, if_true]
    simp only [splitLoop, hs1, hns]

/-- Witness for C2: the divider step, the inline step and the flush shape
at concrete inputs. -/
theorem divider_flush_witness :
    splitLoop ⟨[], some ⟨2026, 1, 4⟩, some ['K'], some ⟨2026, 1, 4, 9, 0⟩,
        [], [['h', 'i']]⟩
      [['-', '-', '-', ' ', '2', '0', '2', '6', '년', ' ', '1', '월', ' ',
        '8', '일', ' ', '-', '-', '-']]
      = splitLoop { flushState ⟨[], some ⟨2026, 1, 4⟩, some ['K'],
          some ⟨2026, 1, 4, 9, 0⟩, [], [['h', 'i']]⟩ with
          current_date := some ⟨2026, 1, 8⟩ } [] ∧
    (flushState ⟨[], some ⟨2026, 1, 4⟩, some ['K'],
        some ⟨2026, 1, 4, 9, 0⟩, [], [['h', 'i']]⟩).messages
      = [] ++ [⟨senderOrUnknown (some ['K']), ⟨2026, 1, 4, 9, 0⟩, [],
          [['h', 'i']]⟩] :=
  ⟨divider_flush_spec.1 ⟨[], some ⟨2026, 1, 4⟩, some ['K'],
      some ⟨2026, 1, 4, 9, 0⟩, [], [['h', 'i']]⟩ _ [] 2026 1 8 ⟨2026, 1, 8⟩
      (by decide) (by decide),
    divider_flush_spec.2.2.1 ⟨[], some ⟨2026, 1, 4⟩, some ['K'],
      some ⟨2026, 1, 4, 9, 0⟩, [], [['h', 'i']]⟩ ⟨2026, 1, 4, 9, 0⟩
      (by decide) (by decide)⟩

end Katalk
